import Mathlib

set_option maxHeartbeats 1000000
set_option maxRecDepth 4000

/-!
Shallow embedding of the core routines of `src/index.ts` of the
cf-worker-image-converter repository: the SVG/GIF animation sniffers and
the dimension extractors.  Buffers are lists of bytes (`Fin 256`),
matching `Uint8Array`; an out-of-range indexed read, which yields
`undefined` in JavaScript, is modelled by an `Option`-valued lookup
(`List.get?` returning `none`), so that `view[i] === b` is `get? i = some b`.
-/

/-- One byte of an image buffer, as held in a `Uint8Array` cell. -/
abbrev Byte := Fin 256

/-- An image buffer: the byte sequence handed to the worker. -/
abbrev ImageBuffer := List Byte

/-- A complete Graphic Control Extension introducer at position `i`: both
marker bytes are present, `view[i] === 0x21 && view[i+1] === 0xF9` in the
source.  An out-of-range read yields `undefined` there and never compares
equal to a byte, which `get? _ = some _` captures. -/
def GceAt (buf : ImageBuffer) (i : Nat) : Prop :=
  buf.get? i = some 0x21 ∧ buf.get? (i + 1) = some 0xF9

instance (buf : ImageBuffer) (i : Nat) : Decidable (GceAt buf i) :=
  inferInstanceAs (Decidable (buf.get? i = some 0x21 ∧ buf.get? (i + 1) = some 0xF9))

/-- The block-aware frame scan of the stricter `isAnimatedGIF`
(`src/index.ts:749-759`).  The `while (pos < view.length)` loop is modelled
by structural recursion on an explicit iteration budget `fuel`; every
iteration advances `pos` by at least one byte, so the budget
`view.length` supplied by `isAnimatedGIF` is never exhausted before the
loop exits on its own. -/
def scanStrict (buf : ImageBuffer) : Nat → Nat → Nat → Bool
  | 0, _, _ => false
  | fuel + 1, pos, frames =>
    if pos < buf.length then
      if GceAt buf pos then
        if frames + 1 > 1 then true
        else scanStrict buf fuel (pos + 8) (frames + 1)
      else if buf.get? pos = some 0x2C then
        scanStrict buf fuel (pos + 11) frames
      else
        scanStrict buf fuel (pos + 1) frames
    else false

/-- The stricter GIF animation classifier (`isAnimatedGIF`,
`src/index.ts:737-762`): reject buffers that do not start with the `GIF`
magic bytes, then scan from offset 13 for a second Graphic Control
Extension. -/
def isAnimatedGIF (buf : ImageBuffer) : Bool :=
  if buf.get? 0 = some 0x47 ∧ buf.get? 1 = some 0x49 ∧ buf.get? 2 = some 0x46 then
    scanStrict buf buf.length 13 0
  else false

/-- The earlier one-marker scan of the simple `isAnimatedGIF`
(`src/index.ts:179-190`): starting at offset 13, report animated on the
first complete `0x21 0xF9` pair, advancing one byte at a time.  The while
loop receives the same fuel treatment as `scanStrict`. -/
def scanSimple (buf : ImageBuffer) : Nat → Nat → Bool
  | 0, _ => false
  | fuel + 1, pos =>
    if pos < buf.length then
      if GceAt buf pos then true
      else scanSimple buf fuel (pos + 1)
    else false

/-- The simple GIF animation classifier (`isAnimatedGIF`,
`src/index.ts:179-190`): no magic check, no frame counting. -/
def isAnimatedGIFSimple (buf : ImageBuffer) : Bool :=
  scanSimple buf buf.length 13

/-- Reading `view[i]` as a number: a JavaScript out-of-range read yields
`undefined`, which the bitwise expressions of `getGIFDimensions` coerce
to `0`; `List.getD _ _ 0` renders exactly that. -/
def byteAt (buf : ImageBuffer) (i : Nat) : Nat :=
  (buf.getD i 0).val

/-- `getGIFDimensions` (`src/index.ts:393-399`, identical at `118-124`):
`width = view[6] | (view[7] << 8)` and `height = view[8] | (view[9] << 8)`. -/
def getGIFDimensions (buf : ImageBuffer) : Nat × Nat :=
  (byteAt buf 6 ||| byteAt buf 7 <<< 8, byteAt buf 8 ||| byteAt buf 9 <<< 8)

/-- The little-endian unsigned 16-bit integer with low byte `lo` and high
byte `hi` (the specification-side reading of the logical screen
descriptor fields). -/
def leU16 (lo hi : Nat) : Nat := lo + 256 * hi

/-- The number of complete Graphic Control Extension introducers anywhere
in the buffer: the specification's "number of GCE blocks". -/
def countGCE (buf : ImageBuffer) : Nat :=
  ((Finset.range buf.length).filter (fun i => GceAt buf i)).card

/-- Does `needle` occur at the very start of `hay`? -/
def charsStartWith : List Char → List Char → Bool
  | _, [] => true
  | [], _ :: _ => false
  | a :: as, b :: bs => a == b && charsStartWith as bs

/-- Model of JavaScript `hay.includes(needle)`: `needle` occurs
contiguously somewhere in `hay`. -/
def charsContain (hay needle : List Char) : Bool :=
  match hay with
  | [] => charsStartWith [] needle
  | c :: rest => charsStartWith (c :: rest) needle || charsContain rest needle

/-- The literal `'<animate'`. -/
def litAnimate : List Char := "<animate".toList

/-- The literal `'<animateTransform'`. -/
def litAnimateTransform : List Char := "<animateTransform".toList

/-- The literal `'<animateMotion'`. -/
def litAnimateMotion : List Char := "<animateMotion".toList

/-- The literal `'<set'`. -/
def litSet : List Char := "<set".toList

/-- The SMIL markers looked for by `isAnimatedSVG` (`src/index.ts:96`). -/
def animationElements : List (List Char) :=
  [litAnimate, litAnimateTransform, litAnimateMotion, litSet]

/-- `isAnimatedSVG` (`src/index.ts:94-98`, identical at `727-735`): the
text contains at least one of the four SMIL animation markers. -/
def isAnimatedSVG (svg : List Char) : Bool :=
  animationElements.any (fun e => charsContain svg e)

/-- A JavaScript number-or-undefined as it flows through
`getSVGDimensions`: a finite numeric value (modelled as a rational), the
`NaN` produced by a failed conversion, or the `undefined` produced by
destructuring a missing array element. -/
inductive JSNum where
  | num (q : ℚ)
  | nan
  | undef
deriving DecidableEq

/-- JavaScript `split(' ')` on a character list: split at every single
space character, keeping empty fields (`''.split(' ')` is `['']`). -/
def splitOnSpace : List Char → List (List Char)
  | [] => [[]]
  | c :: rest =>
    if c = ' ' then [] :: splitOnSpace rest
    else
      match splitOnSpace rest with
      | t :: ts => (c :: t) :: ts
      | [] => [[c]]

/-- JavaScript string whitespace, restricted to the characters that can
occur here. -/
def isWhite (c : Char) : Bool :=
  c == ' ' || c == '\t' || c == '\n' || c == '\r'

/-- The natural number denoted by a run of decimal digit characters. -/
def natOfDigits (ds : List Char) : Nat :=
  ds.foldl (fun acc c => 10 * acc + (c.toNat - 48)) 0

/-- Value of an unsigned decimal literal with integer digits `ds` and
fractional digits `fs`. -/
def decValue (ds fs : List Char) : ℚ :=
  (natOfDigits ds : ℚ) + (natOfDigits fs : ℚ) / ((10 : ℚ) ^ fs.length)

/-- Parse an unsigned decimal numeral that must span the whole string:
`digits`, `digits.digits`, `digits.` or `.digits`.  Helper for the
`Number(...)` model. -/
def parseDecFull (t : List Char) : Option ℚ :=
  let ds := t.takeWhile Char.isDigit
  let rest := t.drop ds.length
  match rest with
  | [] => if ds = [] then none else some ((natOfDigits ds : ℚ))
  | '.' :: rest2 =>
    let fs := rest2.takeWhile Char.isDigit
    if rest2.drop fs.length = [] ∧ (ds ≠ [] ∨ fs ≠ []) then some (decValue ds fs)
    else none
  | _ => none

/-- Model of JavaScript `Number(string)` on the decimal-literal subset
that arises here: surrounding whitespace is trimmed, the empty string
converts to `0`, an optionally signed decimal numeral to its value, and
anything else (internal whitespace, exponents, radix prefixes,
non-numeric text) to `NaN`. -/
def jsNumber (s : List Char) : JSNum :=
  let t := ((s.dropWhile isWhite).reverse.dropWhile isWhite).reverse
  if t = [] then JSNum.num 0
  else
    match t with
    | '-' :: r =>
      match parseDecFull r with
      | some q => JSNum.num (-q)
      | none => JSNum.nan
    | '+' :: r =>
      match parseDecFull r with
      | some q => JSNum.num q
      | none => JSNum.nan
    | _ =>
      match parseDecFull t with
      | some q => JSNum.num q
      | none => JSNum.nan

/-- Parse the longest unsigned decimal numeral prefix, as `parseFloat`
does: `digits`, `digits.digits…`, `digits.` or `.digits…`; `none` when no
digit starts the string. -/
def parseDecLead (t : List Char) : Option ℚ :=
  let ds := t.takeWhile Char.isDigit
  let rest := t.drop ds.length
  match rest with
  | '.' :: rest2 =>
    let fs := rest2.takeWhile Char.isDigit
    if ds = [] ∧ fs = [] then none else some (decValue ds fs)
  | _ => if ds = [] then none else some ((natOfDigits ds : ℚ))

/-- Model of JavaScript `parseFloat(string)` on the same decimal subset:
leading whitespace is skipped, an optional sign and the longest decimal
numeral prefix are converted; `NaN` when no numeral starts the string. -/
def jsParseFloat (s : List Char) : JSNum :=
  let t := s.dropWhile isWhite
  match t with
  | '-' :: r =>
    match parseDecLead r with
    | some q => JSNum.num (-q)
    | none => JSNum.nan
  | '+' :: r =>
    match parseDecLead r with
    | some q => JSNum.num q
    | none => JSNum.nan
  | _ =>
    match parseDecLead t with
    | some q => JSNum.num q
    | none => JSNum.nan

/-- Attempt the regular expression `marker([^"]+)"` at the current
position: `marker` must occur right here, followed by at least one
non-quote character and a closing quote; returns the capture.
`takeWhile` stops at the first quote or at the end of the string, so the
trailing-rest check is exactly the presence of the closing quote. -/
def captureHere (marker s : List Char) : Option (List Char) :=
  if charsStartWith s marker then
    let rest := s.drop marker.length
    let cap := rest.takeWhile (fun c => c != '"')
    if cap ≠ [] ∧ rest.drop cap.length ≠ [] then some cap else none
  else none

/-- Leftmost match of the `/name="([^"]+)"/` patterns used by
`getSVGDimensions` (`src/index.ts:371,379,380`): scan positions left to
right and capture at the first position where the whole pattern matches,
as a JavaScript regex `match` does. -/
def regexCapture (marker : List Char) : List Char → Option (List Char)
  | [] => captureHere marker []
  | c :: rest =>
    match captureHere marker (c :: rest) with
    | some cap => some cap
    | none => regexCapture marker rest

/-- The literal `viewBox="` opening the viewBox pattern. -/
def vbMarker : List Char := "viewBox=\"".toList

/-- The literal `width="` opening the width pattern. -/
def wMarker : List Char := "width=\"".toList

/-- The literal `height="` opening the height pattern. -/
def hMarker : List Char := "height=\"".toList

/-- `getSVGDimensions` (`src/index.ts:365-391`): width/height start at the
defaults `800`/`600`; a `viewBox="…"` match overrides both with elements
2 and 3 of `viewBox.split(' ').map(Number)` (destructuring a missing
element gives `undefined`); otherwise a `width="…"`/`height="…"` match is
fed through `parseFloat`. -/
def getSVGDimensions (text : List Char) : JSNum × JSNum :=
  match regexCapture vbMarker text with
  | some vb =>
    let nums := (splitOnSpace vb).map jsNumber
    ((nums.get? 2).getD JSNum.undef, (nums.get? 3).getD JSNum.undef)
  | none =>
    let w :=
      match regexCapture wMarker text with
      | some v => jsParseFloat v
      | none => JSNum.num 800
    let h :=
      match regexCapture hMarker text with
      | some v => jsParseFloat v
      | none => JSNum.num 600
    (w, h)

/-- The specification-side restatement of the strict scan, following the
words of claim C1: remember whether one Graphic Control Extension has
already been seen, and declare animated exactly when a second one is
encountered. -/
def scanSpec (buf : ImageBuffer) : Nat → Nat → Bool → Bool
  | 0, _, _ => false
  | fuel + 1, pos, seenOne =>
    if pos < buf.length then
      if GceAt buf pos then
        if seenOne then true
        else scanSpec buf fuel (pos + 8) true
      else if buf.get? pos = some 0x2C then
        scanSpec buf fuel (pos + 11) seenOne
      else
        scanSpec buf fuel (pos + 1) seenOne
    else false

/-- The GIF classifier exactly as claim C1 words it: validate the `GIF`
magic signature, return static on mismatch, otherwise skip 13 bytes and
scan, declaring animated exactly on a second Graphic Control Extension. -/
def isAnimatedGIFSpec (buf : ImageBuffer) : Bool :=
  if buf.get? 0 = some 0x47 ∧ buf.get? 1 = some 0x49 ∧ buf.get? 2 = some 0x46 then
    scanSpec buf buf.length 13 false
  else false

/-! ### Concrete sample inputs used by the claim theorems -/

/-- A buffer with a valid `GIF` magic whose two Graphic Control Extension
introducers sit in the 10 bytes jumped over by the Image Descriptor
advance of the strict scan. -/
def gifSkipsOverTwoGce : ImageBuffer :=
  [0x47, 0x49, 0x46, 0, 0, 0, 0, 0, 0, 0, 0, 0, 0, 0x2C, 0x21, 0xF9, 0x21, 0xF9]

/-- A buffer whose single Graphic Control Extension introducer lies inside
the 13-byte header region that both scans skip. -/
def gifGceInHeader : ImageBuffer :=
  [0x47, 0x49, 0x46, 0x21, 0xF9, 0, 0, 0, 0, 0, 0, 0, 0]

/-- A single-frame GIF shape: valid magic and exactly one Graphic Control
Extension introducer, at offset 13. -/
def gifOneGce : ImageBuffer :=
  [0x47, 0x49, 0x46, 0, 0, 0, 0, 0, 0, 0, 0, 0, 0, 0x21, 0xF9]

/-- A 10-byte GIF header whose logical screen descriptor encodes 10×30. -/
def gifHeaderSample : ImageBuffer :=
  [0x47, 0x49, 0x46, 0, 0, 0, 0x0A, 0x00, 0x1E, 0x00]

/-- The svg text of the first dimension example of the specification. -/
def svgViewBoxSample : List Char := "<svg viewBox=\"0 0 120 80\">".toList

/-- The svg text of the second dimension example of the specification. -/
def svgWidthHeightSample : List Char := "<svg width=\"50\" height=\"40\">".toList

/-- The svg text of the third dimension example of the specification. -/
def svgBareSample : List Char := "<svg>".toList

/-- A viewBox whose four numbers are separated by a tab rather than a
space: whitespace-separated but not space-separated. -/
def svgTabbedViewBox : List Char := "<svg viewBox=\"0 0 120\t80\">".toList

/-! ### Arithmetic bridge for the bitwise dimension computation -/

theorem lor_two_pow_mul : ∀ (n a b : Nat), a < 2 ^ n → a ||| 2 ^ n * b = a + 2 ^ n * b := by
  intro n
  induction n with
  | zero =>
    intro a b ha
    have ha0 : a = 0 := by omega
    subst ha0
    simp
  | succ n ih =>
    intro a b ha
    have hsplit : 2 ^ (n + 1) * b = 2 ^ n * b * 2 := by ring
    have hdiv : (a ||| 2 ^ (n + 1) * b) / 2 = a / 2 + 2 ^ n * b := by
      rw [Nat.or_div_two, hsplit, Nat.mul_div_cancel _ (by norm_num)]
      exact ih (a / 2) b (by rw [pow_succ] at ha; omega)
    have hmod : (a ||| 2 ^ (n + 1) * b) % 2 = a % 2 := by
      have heven : (2 ^ (n + 1) * b) % 2 = 0 := by rw [hsplit]; omega
      rcases Nat.mod_two_eq_zero_or_one a with h | h
      · have hne : ¬(a ||| 2 ^ (n + 1) * b) % 2 = 1 := by
          rw [Nat.or_mod_two_eq_one]
          rintro (h1 | h1) <;> omega
        omega
      · have hone : (a ||| 2 ^ (n + 1) * b) % 2 = 1 := Nat.or_mod_two_eq_one.mpr (Or.inl h)
        omega
    have hd := Nat.div_add_mod (a ||| 2 ^ (n + 1) * b) 2
    have hd2 := Nat.div_add_mod a 2
    have hp : 2 ^ (n + 1) * b = 2 * (2 ^ n * b) := by ring
    omega

theorem byte_lor_shiftLeft (a b : Nat) (ha : a < 256) :
    a ||| b <<< 8 = a + 256 * b := by
  have h := lor_two_pow_mul 8 a b (by norm_num [ha])
  rw [Nat.shiftLeft_eq, Nat.mul_comm b (2 ^ 8)]
  rw [h]
  norm_num

theorem byteAt_lt (buf : ImageBuffer) (i : Nat) : byteAt buf i < 256 :=
  (buf.getD i 0).isLt

/-- The two components of `getGIFDimensions` are the little-endian 16-bit
combinations of bytes 6–7 and 8–9 (with missing bytes read as 0). -/
theorem getGIFDimensions_eq (buf : ImageBuffer) :
    getGIFDimensions buf =
      (leU16 (byteAt buf 6) (byteAt buf 7), leU16 (byteAt buf 8) (byteAt buf 9)) := by
  unfold getGIFDimensions leU16
  rw [byte_lor_shiftLeft _ _ (byteAt_lt buf 6), byte_lor_shiftLeft _ _ (byteAt_lt buf 8)]

/-! ### Structural lemmas about the GIF scans -/

theorem gceAt_lt_length {buf : ImageBuffer} {i : Nat} (h : GceAt buf i) :
    i < buf.length := by
  rcases h with ⟨h1, -⟩
  by_contra hge
  rw [List.get?_eq_none.mpr (by omega)] at h1
  exact Option.noConfusion h1

theorem scanSimple_true_exists {buf : ImageBuffer} :
    ∀ fuel pos, scanSimple buf fuel pos = true → ∃ i, pos ≤ i ∧ GceAt buf i := by
  intro fuel
  induction fuel with
  | zero => intro pos h; simp [scanSimple] at h
  | succ fuel ih =>
    intro pos h
    simp only [scanSimple] at h
    by_cases hlen : pos < buf.length
    · rw [if_pos hlen] at h
      by_cases hg : GceAt buf pos
      · exact ⟨pos, Nat.le_refl pos, hg⟩
      · rw [if_neg hg] at h
        obtain ⟨i, hi, hgi⟩ := ih (pos + 1) h
        exact ⟨i, by omega, hgi⟩
    · rw [if_neg hlen] at h
      exact Bool.noConfusion h

theorem scanSimple_complete {buf : ImageBuffer} :
    ∀ fuel pos, buf.length ≤ fuel + pos → (∃ i, pos ≤ i ∧ GceAt buf i) →
      scanSimple buf fuel pos = true := by
  intro fuel
  induction fuel with
  | zero =>
    intro pos hle hex
    obtain ⟨i, hi, hg⟩ := hex
    exact absurd (gceAt_lt_length hg) (by omega)
  | succ fuel ih =>
    intro pos hle hex
    obtain ⟨i, hi, hg⟩ := hex
    have hlen : pos < buf.length := by
      have := gceAt_lt_length hg
      omega
    simp only [scanSimple]
    rw [if_pos hlen]
    by_cases hgp : GceAt buf pos
    · rw [if_pos hgp]
    · rw [if_neg hgp]
      apply ih (pos + 1) (by omega)
      rcases Nat.eq_or_lt_of_le hi with heq | hlt
      · exact absurd (heq ▸ hg) hgp
      · exact ⟨i, by omega, hg⟩

theorem scanStrict_true_exists {buf : ImageBuffer} :
    ∀ fuel pos frames, scanStrict buf fuel pos frames = true →
      ∃ i, pos ≤ i ∧ GceAt buf i := by
  intro fuel
  induction fuel with
  | zero => intro pos frames h; simp [scanStrict] at h
  | succ fuel ih =>
    intro pos frames h
    simp only [scanStrict] at h
    by_cases hlen : pos < buf.length
    · rw [if_pos hlen] at h
      by_cases hg : GceAt buf pos
      · exact ⟨pos, Nat.le_refl pos, hg⟩
      · rw [if_neg hg] at h
        by_cases h2c : buf.get? pos = some 0x2C
        · rw [if_pos h2c] at h
          obtain ⟨i, hi, hgi⟩ := ih (pos + 11) frames h
          exact ⟨i, by omega, hgi⟩
        · rw [if_neg h2c] at h
          obtain ⟨i, hi, hgi⟩ := ih (pos + 1) frames h
          exact ⟨i, by omega, hgi⟩
    · rw [if_neg hlen] at h
      exact Bool.noConfusion h

theorem scanStrict_zero_two {buf : ImageBuffer} :
    ∀ fuel pos, scanStrict buf fuel pos 0 = true →
      ∃ i j, pos ≤ i ∧ i < j ∧ GceAt buf i ∧ GceAt buf j := by
  intro fuel
  induction fuel with
  | zero => intro pos h; simp [scanStrict] at h
  | succ fuel ih =>
    intro pos h
    simp only [scanStrict] at h
    by_cases hlen : pos < buf.length
    · rw [if_pos hlen] at h
      by_cases hg : GceAt buf pos
      · rw [if_pos hg, if_neg (by omega : ¬(0 + 1 > 1))] at h
        obtain ⟨j, hj, hgj⟩ := scanStrict_true_exists fuel (pos + 8) 1 h
        exact ⟨pos, j, Nat.le_refl pos, by omega, hg, hgj⟩
      · rw [if_neg hg] at h
        by_cases h2c : buf.get? pos = some 0x2C
        · rw [if_pos h2c] at h
          obtain ⟨i, j, hi, hij, hgi, hgj⟩ := ih (pos + 11) h
          exact ⟨i, j, by omega, hij, hgi, hgj⟩
        · rw [if_neg h2c] at h
          obtain ⟨i, j, hi, hij, hgi, hgj⟩ := ih (pos + 1) h
          exact ⟨i, j, by omega, hij, hgi, hgj⟩
    · rw [if_neg hlen] at h
      exact Bool.noConfusion h

theorem two_le_countGCE {buf : ImageBuffer} {i j : Nat} (hij : i < j)
    (hi : GceAt buf i) (hj : GceAt buf j) : 2 ≤ countGCE buf := by
  have mi : i ∈ (Finset.range buf.length).filter (fun k => GceAt buf k) :=
    Finset.mem_filter.mpr ⟨Finset.mem_range.mpr (gceAt_lt_length hi), hi⟩
  have mj : j ∈ (Finset.range buf.length).filter (fun k => GceAt buf k) :=
    Finset.mem_filter.mpr ⟨Finset.mem_range.mpr (gceAt_lt_length hj), hj⟩
  exact Finset.one_lt_card.mpr ⟨i, mi, j, mj, by omega⟩

theorem isAnimatedGIF_eq_false_of_count_lt_two {buf : ImageBuffer}
    (h : countGCE buf < 2) : isAnimatedGIF buf = false := by
  cases hb : isAnimatedGIF buf
  · rfl
  · exfalso
    unfold isAnimatedGIF at hb
    by_cases hm : buf.get? 0 = some 0x47 ∧ buf.get? 1 = some 0x49 ∧ buf.get? 2 = some 0x46
    · rw [if_pos hm] at hb
      obtain ⟨i, j, -, hij, hgi, hgj⟩ := scanStrict_zero_two buf.length 13 hb
      exact absurd (two_le_countGCE hij hgi hgj) (by omega)
    · rw [if_neg hm] at hb
      exact Bool.noConfusion hb

/-! ### Equivalence of the frame counter and the seen-one flag -/

theorem scanStrict_eq_scanSpec {buf : ImageBuffer} :
    ∀ fuel pos frames,
      scanStrict buf fuel pos frames = scanSpec buf fuel pos (decide (1 ≤ frames)) := by
  intro fuel
  induction fuel with
  | zero => intro pos frames; simp [scanStrict, scanSpec]
  | succ fuel ih =>
    intro pos frames
    simp only [scanStrict, scanSpec]
    by_cases hlen : pos < buf.length
    · rw [if_pos hlen, if_pos hlen]
      by_cases hg : GceAt buf pos
      · rw [if_pos hg, if_pos hg]
        by_cases hf : 1 ≤ frames
        · rw [if_pos (by omega : frames + 1 > 1), if_pos (decide_eq_true hf)]
        · rw [if_neg (by omega : ¬frames + 1 > 1),
            if_neg (by simp [hf] : ¬decide (1 ≤ frames) = true)]
          rw [ih (pos + 8) (frames + 1)]
          rw [decide_eq_true (by omega : 1 ≤ frames + 1)]
      · rw [if_neg hg, if_neg hg]
        by_cases h2c : buf.get? pos = some 0x2C
        · rw [if_pos h2c, if_pos h2c]
          exact ih (pos + 11) frames
        · rw [if_neg h2c, if_neg h2c]
          exact ih (pos + 1) frames
    · rw [if_neg hlen, if_neg hlen]

/-! ### Substring characterisation of `includes` -/

theorem charsStartWith_iff :
    ∀ hay needle : List Char,
      charsStartWith hay needle = true ↔ ∃ rest, hay = needle ++ rest := by
  intro hay needle
  induction needle generalizing hay with
  | nil =>
    constructor
    · intro _
      exact ⟨hay, rfl⟩
    · intro _
      cases hay <;> rfl
  | cons b bs ih =>
    cases hay with
    | nil => simp [charsStartWith]
    | cons a as =>
      simp only [charsStartWith, Bool.and_eq_true, beq_iff_eq]
      constructor
      · rintro ⟨rfl, h⟩
        obtain ⟨rest, hr⟩ := (ih as).mp h
        exact ⟨rest, by simp [hr]⟩
      · rintro ⟨rest, hr⟩
        simp only [List.cons_append] at hr
        injection hr with h1 h2
        exact ⟨h1, (ih as).mpr ⟨rest, h2⟩⟩

theorem charsContain_iff :
    ∀ hay needle : List Char,
      charsContain hay needle = true ↔ ∃ p q, hay = p ++ needle ++ q := by
  intro hay needle
  induction hay with
  | nil =>
    rw [show charsContain [] needle = charsStartWith [] needle from rfl, charsStartWith_iff]
    constructor
    · rintro ⟨rest, hr⟩
      exact ⟨[], rest, by simpa using hr⟩
    · rintro ⟨p, q, hpq⟩
      have h := hpq.symm
      simp only [List.append_eq_nil] at h
      obtain ⟨⟨-, hn⟩, -⟩ := h
      exact ⟨[], by simp [hn]⟩
  | cons c rest ih =>
    rw [show charsContain (c :: rest) needle =
        (charsStartWith (c :: rest) needle || charsContain rest needle) from rfl]
    rw [Bool.or_eq_true, charsStartWith_iff, ih]
    constructor
    · rintro (⟨r, hr⟩ | ⟨p, q, hpq⟩)
      · exact ⟨[], r, by simpa using hr⟩
      · exact ⟨c :: p, q, by simp [hpq]⟩
    · rintro ⟨p, q, hpq⟩
      cases p with
      | nil => exact Or.inl ⟨q, by simpa using hpq⟩
      | cons x xs =>
        simp only [List.cons_append] at hpq
        injection hpq with h1 h2
        exact Or.inr ⟨xs, q, by simpa using h2⟩

/-! ### Claim theorems -/

/-- C1: the stricter GIF classifier first validates the 3-byte `GIF` magic
signature at offset 0 and returns static on mismatch; otherwise it skips 13
bytes and scans forward, declaring animated exactly when a second Graphic
Control Extension marker `0x21 0xF9` is encountered, advancing 8 bytes after
a GCE marker, 11 bytes after an Image Descriptor marker `0x2C`, 1 byte
otherwise, and returning static when the end of the buffer is reached first:
the code's frame-counter loop coincides with this specification-side
algorithm on every buffer. -/
theorem c1_strict_scan_follows_spec (buf : ImageBuffer) :
    isAnimatedGIF buf = isAnimatedGIFSpec buf := by
  unfold isAnimatedGIF isAnimatedGIFSpec
  by_cases hm : buf.get? 0 = some 0x47 ∧ buf.get? 1 = some 0x49 ∧ buf.get? 2 = some 0x46
  · rw [if_pos hm, if_pos hm]
    have h := @scanStrict_eq_scanSpec buf buf.length 13 0
    simpa using h
  · rw [if_neg hm, if_neg hm]

/-- C2: the SVG classifier returns animated exactly when the text contains
one of the literal substrings `<animate`, `<animateTransform`,
`<animateMotion`, `<set` anywhere in it. -/
theorem c2_svg_animated_iff_contains_marker (svg : List Char) :
    isAnimatedSVG svg = true ↔
      ((∃ p q, svg = p ++ litAnimate ++ q) ∨
        (∃ p q, svg = p ++ litAnimateTransform ++ q) ∨
        (∃ p q, svg = p ++ litAnimateMotion ++ q) ∨
        (∃ p q, svg = p ++ litSet ++ q)) := by
  simp only [isAnimatedSVG, animationElements, List.any_cons, List.any_nil,
    Bool.or_eq_true, charsContain_iff]
  simp

/-- C3 counterexample: a buffer with a valid `GIF` magic containing two
Graphic Control Extension introducers that the strict scan jumps over via
the Image Descriptor advance; the classifier returns static although the
buffer holds two GCE blocks, refuting the claimed equivalence with the
predicate "number of GCE blocks is at least 2". -/
theorem c3_counterexample_two_gce_but_static :
    countGCE gifSkipsOverTwoGce = 2 ∧ isAnimatedGIF gifSkipsOverTwoGce = false :=
  ⟨by decide, by decide⟩

/-- C3 amended: with fewer than two Graphic Control Extension blocks
anywhere in the buffer the strict classifier does return static; the
converse direction of the original claim fails (see the counterexample). -/
theorem c3_amended_static_of_few_gce (buf : ImageBuffer) (h : countGCE buf < 2) :
    isAnimatedGIF buf = false :=
  isAnimatedGIF_eq_false_of_count_lt_two h

/-- C3 witness: the amended theorem applied to the single-GCE buffer. -/
theorem c3_amended_witness :
    countGCE gifOneGce < 2 ∧ isAnimatedGIF gifOneGce = false :=
  ⟨by decide, c3_amended_static_of_few_gce gifOneGce (by decide)⟩

/-- C4 counterexample: a buffer containing exactly one Graphic Control
Extension introducer, located inside the 13-byte header region: the simple
variant also returns static there, refuting the universally quantified
"the simple variant returns animated on every buffer with exactly one
GCE". -/
theorem c4_counterexample_one_gce_simple_static :
    countGCE gifGceInHeader = 1 ∧ isAnimatedGIFSimple gifGceInHeader = false :=
  ⟨by decide, by decide⟩

/-- C4 amended: the two classifiers are not extensionally equal; on every
buffer whose single complete Graphic Control Extension introducer lies at
offset 13 or later, the stricter classifier returns static while the
simple variant returns animated. -/
theorem c4_amended_classifiers_differ (buf : ImageBuffer) (h1 : countGCE buf = 1)
    (h2 : ∃ i, 13 ≤ i ∧ GceAt buf i) :
    isAnimatedGIF buf = false ∧ isAnimatedGIFSimple buf = true := by
  constructor
  · exact isAnimatedGIF_eq_false_of_count_lt_two (by omega)
  · unfold isAnimatedGIFSimple
    exact scanSimple_complete buf.length 13 (by omega) h2

/-- C4 witness: the amended theorem applied to the single-frame GIF shape,
which also exhibits the two classifiers disagreeing on one input. -/
theorem c4_amended_witness :
    countGCE gifOneGce = 1 ∧ (∃ i, 13 ≤ i ∧ GceAt gifOneGce i) ∧
      isAnimatedGIF gifOneGce = false ∧ isAnimatedGIFSimple gifOneGce = true :=
  ⟨by decide, ⟨13, by omega, by decide⟩,
    c4_amended_classifiers_differ gifOneGce (by decide) ⟨13, by omega, by decide⟩⟩

/-- C5: on any buffer long enough to hold the logical screen descriptor,
the GIF dimension extractor returns the little-endian unsigned 16-bit
integers formed from bytes 6–7 (width) and 8–9 (height). -/
theorem c5_gif_dims_little_endian (buf : ImageBuffer) (h : 10 ≤ buf.length) :
    getGIFDimensions buf =
      (leU16 (buf.get ⟨6, by omega⟩).val (buf.get ⟨7, by omega⟩).val,
       leU16 (buf.get ⟨8, by omega⟩).val (buf.get ⟨9, by omega⟩).val) := by
  have hb : ∀ (k : Nat) (hk : k < buf.length), byteAt buf k = (buf.get ⟨k, hk⟩).val := by
    intro k hk
    unfold byteAt
    rw [List.getD_eq_get?, List.get?_eq_get hk]
    rfl
  rw [getGIFDimensions_eq, hb 6 (by omega), hb 7 (by omega), hb 8 (by omega),
    hb 9 (by omega)]

/-- C5 witness: bytes 6–9 equal to `0x0A 0x00 0x1E 0x00` yield 10×30. -/
theorem c5_witness :
    10 ≤ gifHeaderSample.length ∧ getGIFDimensions gifHeaderSample = (10, 30) :=
  ⟨by decide, (c5_gif_dims_little_endian gifHeaderSample (by decide)).trans (by decide)⟩

/-- C6 counterexample: on the empty buffer, far shorter than 10 bytes, the
extractor does not fail with any error: it returns the substituted value
(0, 0).  The embedded function is total with result type `Nat × Nat`,
mirroring the source, which contains no length check and no
`MalformedInput` error path at all. -/
theorem c6_counterexample_short_buffer_returns_value :
    getGIFDimensions ([] : ImageBuffer) = (0, 0) := by decide

/-- C6 amended: a GIF buffer shorter than 10 bytes never faults and never
raises an error; each missing byte is read as 0, so every buffer with at
most 6 bytes yields the degenerate dimensions 0×0. -/
theorem c6_amended_short_buffer_no_error (buf : ImageBuffer) (h : buf.length ≤ 6) :
    getGIFDimensions buf = (0, 0) := by
  have hz : ∀ k : Nat, 6 ≤ k → byteAt buf k = 0 := by
    intro k hk
    unfold byteAt
    rw [List.getD_eq_get?, List.get?_eq_none.mpr (by omega)]
    rfl
  rw [getGIFDimensions_eq, hz 6 (by omega), hz 7 (by omega), hz 8 (by omega),
    hz 9 (by omega)]
  rfl

/-- C6 witness: the amended theorem applied to a 1-byte buffer. -/
theorem c6_amended_witness :
    ([0x47] : ImageBuffer).length ≤ 6 ∧ getGIFDimensions [0x47] = (0, 0) :=
  ⟨by decide, c6_amended_short_buffer_no_error [0x47] (by decide)⟩

/-- C7 counterexample: a viewBox whose four numbers are separated by a tab
is whitespace-separated, so the claim predicts width 120 and height 80;
the code splits on single spaces only, so the third token is the
non-numeric `120\t80` (giving `NaN`) and the fourth is missing (giving
`undefined`). -/
theorem c7_counterexample_tab_separated_viewbox :
    getSVGDimensions svgTabbedViewBox = (JSNum.nan, JSNum.undef) ∧
      getSVGDimensions svgTabbedViewBox ≠ (JSNum.num 120, JSNum.num 80) :=
  ⟨by decide, by decide⟩

/-- C7 amended: the extractor prefers a `viewBox` match, taking elements 2
and 3 of the value split on single space characters and converted by
`Number` (a missing element yields `undefined`, a non-numeric token `NaN`,
neither is defaulted); without a viewBox match the `width`/`height`
attribute matches are converted by `parseFloat` with independent fallbacks
800 and 600; the three examples of the specification hold, and extraction
is total. -/
theorem c7_amended_svg_dimension_extraction :
    (∀ text vb, regexCapture vbMarker text = some vb →
        getSVGDimensions text =
          ((((splitOnSpace vb).map jsNumber).get? 2).getD JSNum.undef,
           (((splitOnSpace vb).map jsNumber).get? 3).getD JSNum.undef)) ∧
      (∀ text, regexCapture vbMarker text = none →
        getSVGDimensions text =
          ((regexCapture wMarker text).elim (JSNum.num 800) jsParseFloat,
           (regexCapture hMarker text).elim (JSNum.num 600) jsParseFloat)) ∧
      getSVGDimensions svgViewBoxSample = (JSNum.num 120, JSNum.num 80) ∧
      getSVGDimensions svgWidthHeightSample = (JSNum.num 50, JSNum.num 40) ∧
      getSVGDimensions svgBareSample = (JSNum.num 800, JSNum.num 600) := by
  refine ⟨?_, ?_, by decide, by decide, by decide⟩
  · intro text vb hvb
    unfold getSVGDimensions
    rw [hvb]
  · intro text hvb
    unfold getSVGDimensions
    rw [hvb]
    cases hw : regexCapture wMarker text <;> cases hh : regexCapture hMarker text <;> rfl

/-- C7 witness: the amended theorem applied to the first specification
example, whose viewBox capture is `0 0 120 80`. -/
theorem c7_amended_witness :
    regexCapture vbMarker svgViewBoxSample = some ("0 0 120 80".toList) ∧
      getSVGDimensions svgViewBoxSample =
        ((((splitOnSpace ("0 0 120 80".toList)).map jsNumber).get? 2).getD JSNum.undef,
         (((splitOnSpace ("0 0 120 80".toList)).map jsNumber).get? 3).getD JSNum.undef) :=
  ⟨by decide,
    c7_amended_svg_dimension_extraction.1 svgViewBoxSample ("0 0 120 80".toList) (by decide)⟩

/-- C8: truncated or malformed GIF buffers are handled without any
out-of-bounds fault: the embedded scans are total functions whose
out-of-range reads are `none`, a buffer shorter than 13 bytes is classified
static by both scanners, and whenever no complete `0x21 0xF9` pair exists
at offset 13 or later (in particular when a trailing `0x21` lost its
argument byte) both scanners treat the missing bytes as no marker,
terminate, and return static. -/
theorem c8_truncated_gif_scan_safe (buf : ImageBuffer) :
    (buf.length < 13 → isAnimatedGIFSimple buf = false ∧ isAnimatedGIF buf = false) ∧
      ((¬∃ i, 13 ≤ i ∧ GceAt buf i) →
        isAnimatedGIFSimple buf = false ∧ isAnimatedGIF buf = false) := by
  have main : (¬∃ i, 13 ≤ i ∧ GceAt buf i) →
      isAnimatedGIFSimple buf = false ∧ isAnimatedGIF buf = false := by
    intro hne
    constructor
    · cases hb : isAnimatedGIFSimple buf
      · rfl
      · exfalso
        unfold isAnimatedGIFSimple at hb
        exact hne (scanSimple_true_exists buf.length 13 hb)
    · cases hb : isAnimatedGIF buf
      · rfl
      · exfalso
        unfold isAnimatedGIF at hb
        by_cases hm : buf.get? 0 = some 0x47 ∧ buf.get? 1 = some 0x49 ∧ buf.get? 2 = some 0x46
        · rw [if_pos hm] at hb
          exact hne (scanStrict_true_exists buf.length 13 0 hb)
        · rw [if_neg hm] at hb
          exact Bool.noConfusion hb
  refine ⟨fun hlen => main ?_, main⟩
  rintro ⟨i, hi, hg⟩
  have := gceAt_lt_length hg
  omega

/-- C8 witness: both conjuncts of the safety theorem applied to a 3-byte
truncated buffer. -/
theorem c8_witness :
    (([0x47, 0x49, 0x46] : ImageBuffer).length < 13 ∧
        isAnimatedGIFSimple [0x47, 0x49, 0x46] = false ∧
        isAnimatedGIF [0x47, 0x49, 0x46] = false) ∧
      ((¬∃ i, 13 ≤ i ∧ GceAt ([0x47, 0x49, 0x46] : ImageBuffer) i) ∧
        isAnimatedGIFSimple [0x47, 0x49, 0x46] = false ∧
        isAnimatedGIF [0x47, 0x49, 0x46] = false) := by
  have hne : ¬∃ i, 13 ≤ i ∧ GceAt ([0x47, 0x49, 0x46] : ImageBuffer) i := by
    rintro ⟨i, hi, hg⟩
    have hl := gceAt_lt_length hg
    simp at hl
    omega
  exact ⟨⟨by decide, (c8_truncated_gif_scan_safe _).1 (by decide)⟩,
    hne, (c8_truncated_gif_scan_safe _).2 hne⟩

/-- C9 counterexample: a 10-byte all-zero buffer (long enough for the
logical screen descriptor) is mapped to width 0 and height 0, which are
not positive, refuting the claimed positivity invariant. -/
theorem c9_counterexample_zero_dimensions :
    getGIFDimensions (List.replicate 10 (0 : Byte)) = (0, 0) ∧
      ¬0 < (getGIFDimensions (List.replicate 10 (0 : Byte))).1 :=
  ⟨by decide, by decide⟩

/-- C9 amended: the GIF dimension extractor always returns natural numbers
below 2^16 (nonnegativity is inherent in the type); positivity is not an
invariant of the code, which can return zero dimensions. -/
theorem c9_amended_dims_are_16_bit (buf : ImageBuffer) :
    (getGIFDimensions buf).1 < 65536 ∧ (getGIFDimensions buf).2 < 65536 := by
  have h6 := byteAt_lt buf 6
  have h7 := byteAt_lt buf 7
  have h8 := byteAt_lt buf 8
  have h9 := byteAt_lt buf 9
  rw [getGIFDimensions_eq]
  constructor
  · show leU16 (byteAt buf 6) (byteAt buf 7) < 65536
    unfold leU16
    omega
  · show leU16 (byteAt buf 8) (byteAt buf 9) < 65536
    unfold leU16
    omega

/-- C10: the GIF dimension extractor is total over all buffers and signals
no error; each byte read past the end of the buffer enters the
little-endian combination as 0, and the empty buffer yields width 0 and
height 0 rather than an error or a crash. -/
theorem c10_gif_dims_total_oob_reads_zero (buf : ImageBuffer) :
    getGIFDimensions buf =
      (leU16 (byteAt buf 6) (byteAt buf 7), leU16 (byteAt buf 8) (byteAt buf 9)) ∧
      getGIFDimensions ([] : ImageBuffer) = (0, 0) :=
  ⟨getGIFDimensions_eq buf, by decide⟩
